import Mathlib

/-!
Verification of the task store, filter/sort pipeline and AI category
extraction of `streamlit_todo_app.py`, a single-file to-do list
application.  The data model and every operation below are shallow
embeddings of the corresponding Python code: persistence is modelled by
an optional file image (`none` = absent or unparsable file), the clock
and the remote AI response are injected as explicit parameters, and
Python's stable `list.sort(key=...)` is modelled by `List.mergeSort`
over the same key.
-/

namespace TodoApp

/-- Python `str.isspace` on the ASCII whitespace characters stripped by
`str.strip()`. -/
def pyIsSpace (c : Char) : Bool :=
  c == ' ' || c == '\t' || c == '\n' || c == '\r' || c == '\x0b' || c == '\x0c'

/-- Python `s.strip()`: remove leading and trailing whitespace. -/
def pyStrip (s : String) : String :=
  String.mk (((s.data.dropWhile pyIsSpace).reverse.dropWhile pyIsSpace).reverse)

/-- Python `s.lower()` (code-point-wise lowering). -/
def pyLower (s : String) : String :=
  String.mk (s.data.map Char.toLower)

/-- Python `s[:n]`: the first `n` code points. -/
def pyTake (s : String) (n : Nat) : String :=
  String.mk (s.data.take n)

/-- Python string comparison `a <= b`: lexicographic on code points. -/
def lexLe : List Char → List Char → Bool
  | [], _ => true
  | _ :: _, [] => false
  | a :: as, b :: bs =>
    if a < b then true
    else if b < a then false
    else lexLe as bs

/-- A task record, as built by the add-task form (lines 120-129 of
`streamlit_todo_app.py`).  All fields are always present, matching the
dictionaries the application itself creates. -/
structure Task where
  id : Nat
  title : String
  description : String
  created_at : String
  due : String
  priority : String
  category : String
  done : Bool
deriving DecidableEq

/-- The store: the in-memory task list (`st.session_state.tasks`), the
on-disk file image (`none` models an absent or unparsable `tasks.json`),
and a counter of how many times `save_tasks` ran (so "save was not
called" is expressible). -/
structure StoreState where
  mem : List Task
  file : Option (List Task)
  writes : Nat
deriving DecidableEq

/-- `load_tasks` (lines 22-29): returns the parsed file contents, or the
empty list when the file is absent or unparsable. -/
def load_tasks (file : Option (List Task)) : List Task :=
  match file with
  | some ts => ts
  | none => []

/-- `save_tasks` (lines 31-33): overwrites the file with the full task
list. -/
def save_tasks (ts : List Task) (st : StoreState) : StoreState :=
  { st with file := some ts, writes := st.writes + 1 }

/-- The inputs of one submission of the add-task form, with the clock
injected (`now_ms` is `int(datetime.now(timezone.utc).timestamp()*1000)`,
`now_iso` the ISO timestamp).  `due` is the optional date widget value,
already rendered as a string. -/
structure AddInput where
  now_ms : Nat
  now_iso : String
  title_input : String
  desc_input : String
  due : Option String
  priority : String
  category : String
deriving DecidableEq

/-- The task dictionary built on a valid submit (lines 120-129).
`title` is `title_input.strip() or (desc_input.strip()[:60] + "...")`. -/
def mkTask (a : AddInput) : Task :=
  { id := a.now_ms
    title :=
      if pyStrip a.title_input = "" then pyTake (pyStrip a.desc_input) 60 ++ "..."
      else pyStrip a.title_input
    description := pyStrip a.desc_input
    created_at := a.now_iso
    due := match a.due with | some d => d | none => ""
    priority := a.priority
    category := a.category
    done := false }

/-- The submit handler (lines 116-133): when both stripped inputs are
empty, show an error (the returned flag) and change nothing; otherwise
append the new task and persist. -/
def submitAdd (a : AddInput) (st : StoreState) : StoreState × Bool :=
  if pyStrip a.title_input = "" ∧ pyStrip a.desc_input = "" then
    (st, true)
  else
    let mem := st.mem ++ [mkTask a]
    (save_tasks mem { st with mem := mem }, false)

/-- The fields of the edit panel (lines 211-215). -/
structure EditInput where
  etitle : String
  edesc : String
  edue : String
  epriority : String
  ecat : String
deriving DecidableEq

/-- One iteration of the edit-save loop (lines 217-223): overwrite the
fields of a task whose `id` matches, leave others alone. -/
def applyEdit (eid : Nat) (e : EditInput) (t : Task) : Task :=
  if t.id = eid then
    { t with
        title := pyStrip e.etitle
        description := pyStrip e.edesc
        due := pyStrip e.edue
        priority := e.epriority
        category := e.ecat }
  else t

/-- The edit save handler (lines 216-224): rewrite every matching task,
then persist unconditionally. -/
def editSave (eid : Nat) (e : EditInput) (st : StoreState) : StoreState :=
  let mem := st.mem.map (applyEdit eid e)
  save_tasks mem { st with mem := mem }

/-- The delete button handler (lines 189-193): keep only the tasks whose
`id` differs, then persist. -/
def deleteTask (tid : Nat) (st : StoreState) : StoreState :=
  let mem := st.mem.filter (fun x => x.id != tid)
  save_tasks mem { st with mem := mem }

/-- The move-to-top handler (lines 194-198): drop every task with the
same `id` as the clicked task `t`, reinsert `t` at index 0, persist. -/
def moveToTop (t : Task) (st : StoreState) : StoreState :=
  let mem := t :: st.mem.filter (fun x => x.id != t.id)
  save_tasks mem { st with mem := mem }

/-- One iteration of the done-toggle loop (lines 200-202). -/
def setTaskDone (tid : Nat) (d : Bool) (t : Task) : Task :=
  if t.id = tid then { t with done := d } else t

/-- The done-toggle diff branch (lines 199-204): only when the checkbox
value `d` differs from the rendered task's stored `done` are all
matching tasks updated and the file rewritten. -/
def doneToggle (t : Task) (d : Bool) (st : StoreState) : StoreState :=
  if d ≠ t.done then
    let mem := st.mem.map (setTaskDone t.id d)
    save_tasks mem { st with mem := mem }
  else st

/-- The store mutations a user interaction can trigger. -/
inductive Op where
  | add (a : AddInput)
  | edit (eid : Nat) (e : EditInput)
  | del (tid : Nat)
  | moveTop (t : Task)
  | toggle (t : Task) (d : Bool)
deriving DecidableEq

def applyOp (op : Op) (st : StoreState) : StoreState :=
  match op with
  | .add a => (submitAdd a st).1
  | .edit eid e => editSave eid e st
  | .del tid => deleteTask tid st
  | .moveTop t => moveToTop t st
  | .toggle t d => doneToggle t d st

def applyOps (ops : List Op) (st : StoreState) : StoreState :=
  match ops with
  | [] => st
  | op :: rest => applyOps rest (applyOp op st)

/-- The filter loop (lines 146-152): skip done tasks unless `show_done`,
skip tasks of another category unless the filter is `"all"`. -/
def filterTasks (show_done : Bool) (filter_cat : String) (tasks : List Task) :
    List Task :=
  tasks.filter (fun t =>
    (show_done || !t.done) && (filter_cat == "all" || t.category == filter_cat))

/-- The due sort key (line 156): `x.get("due") or "9999-99-99"`. -/
def dueKey (t : Task) : String :=
  if t.due = "" then "9999-99-99" else t.due

/-- Sorting by due date (lines 155-156).  Python's `list.sort(key=...)`
is the stable sort by the key; insertion sort with the reflexive key
order is stable, hence produces the same list. -/
def sortByDue (tasks : List Task) : List Task :=
  List.insertionSort (fun a b => lexLe (dueKey a).data (dueKey b).data = true) tasks

/-- The priority sort key (lines 157-159):
`{"High":0,"Medium":1,"Low":2}.get(x.get("priority","Medium"), 1)`. -/
def priorityRank (t : Task) : Nat :=
  if t.priority = "High" then 0
  else if t.priority = "Medium" then 1
  else if t.priority = "Low" then 2
  else 1

/-- Sorting by priority (lines 157-159), again the stable sort by the
key. -/
def sortByPriority (tasks : List Task) : List Task :=
  List.insertionSort (fun a b => priorityRank a ≤ priorityRank b) tasks

/-- The category enumeration scanned by `ai_categorize` (line 71). -/
def categories : List String :=
  ["work", "personal", "shopping", "errands", "learning", "other"]

/-- Python's `c in cat` substring test. -/
def containsSub (c s : String) : Bool :=
  decide (c.data <:+: s.data)

/-- `ai_categorize` (lines 66-74) with the raw chat-completion response
injected: returns `""` when no API key is configured, otherwise
lower-cases the response and returns the first enumeration member
occurring in it as a substring, defaulting to `"other"`. -/
def ai_categorize (use_ai : Bool) (raw : String) : String :=
  if !use_ai then ""
  else
    let cat := pyLower raw
    match categories.find? (fun c => containsSub c cat) with
    | some c => c
    | none => "other"

/-- The ids of the tasks of a list, in order. -/
def memIds (ts : List Task) : List Nat := ts.map Task.id

/-- The millisecond timestamps consumed by the add operations of a
run. -/
def addIds (ops : List Op) : List Nat :=
  ops.filterMap (fun op =>
    match op with
    | Op.add a => some a.now_ms
    | _ => none)

/-- In the application a move-to-top click always carries a task that is
currently rendered, hence currently in the store; this checks that a
run's move-to-top operations respect it. -/
def movesValid (ops : List Op) (st : StoreState) : Bool :=
  match ops with
  | [] => true
  | op :: rest =>
    (match op with
     | Op.moveTop t => decide (t ∈ st.mem)
     | _ => true) && movesValid rest (applyOp op st)

/-! Concrete data used to instantiate the theorems below. -/

/-- An empty store whose file mirrors the (empty) memory. -/
def st0 : StoreState := { mem := [], file := some [], writes := 0 }

/-- A form submission stamped at millisecond 5. -/
def addA : AddInput :=
  { now_ms := 5, now_iso := "t1", title_input := "alpha", desc_input := "",
    due := none, priority := "Medium", category := "uncategorized" }

/-- A second submission stamped at the same millisecond 5. -/
def addB : AddInput :=
  { addA with title_input := "beta", now_iso := "t2" }

/-- A submission stamped at millisecond 6. -/
def addC : AddInput :=
  { addA with title_input := "gamma", now_ms := 6, now_iso := "t3" }

/-- A submission whose title and description are whitespace only. -/
def addEmpty : AddInput :=
  { addA with title_input := " ", desc_input := "" }

/-- A task whose due string compares above the `"9999-99-99"` sentinel. -/
def tTilde : Task :=
  { id := 1, title := "a", description := "", created_at := "c1",
    due := "~", priority := "Medium", category := "work", done := false }

/-- A task with an empty due date. -/
def tEmpty : Task :=
  { id := 2, title := "b", description := "", created_at := "c2",
    due := "", priority := "Low", category := "personal", done := true }

/-- A high-priority task. -/
def tHigh : Task :=
  { id := 3, title := "c", description := "", created_at := "c3",
    due := "2024-01-01", priority := "High", category := "work", done := false }

/-- Two distinct tasks sharing id 7, and one with id 8. -/
def dupA : Task :=
  { id := 7, title := "d1", description := "", created_at := "c4",
    due := "", priority := "Medium", category := "work", done := false }

def dupB : Task :=
  { id := 7, title := "d2", description := "", created_at := "c5",
    due := "", priority := "Medium", category := "work", done := false }

def task8 : Task :=
  { id := 8, title := "d3", description := "", created_at := "c6",
    due := "", priority := "Medium", category := "work", done := false }

/-- A store holding duplicate ids 7, 7 and the id 8. -/
def stDup : StoreState :=
  { mem := [dupA, dupB, task8], file := some [dupA, dupB, task8], writes := 0 }

/-- Sample edit-panel contents. -/
def eDemo : EditInput :=
  { etitle := "new", edesc := "nd", edue := "2024-02-02",
    epriority := "High", ecat := "learning" }

/-! ## Theorems -/

/-- C2: submitting the add-task form with title and description both
empty after stripping is rejected with a visible error (the `true`
flag), and the store — in-memory list, file and write counter — is left
exactly as it was: no task is appended and `save_tasks` is not called. -/
theorem c2_empty_submit_rejected (a : AddInput) (st : StoreState)
    (ht : pyStrip a.title_input = "") (hd : pyStrip a.desc_input = "") :
    submitAdd a st = (st, true) := by
  simp [submitAdd, ht, hd]

theorem c2_witness :
    pyStrip addEmpty.title_input = "" ∧ submitAdd addEmpty st0 = (st0, true) :=
  ⟨by decide, c2_empty_submit_rejected addEmpty st0 (by decide) (by decide)⟩

/-- C4: on a valid submission the new task is appended, and its title is
non-empty: it is the stripped title input when that is non-empty, and
otherwise the first 60 characters of the stripped description followed
by `"..."`. -/
theorem c4_title_nonempty (a : AddInput) (st : StoreState)
    (h : ¬(pyStrip a.title_input = "" ∧ pyStrip a.desc_input = "")) :
    (submitAdd a st).1.mem = st.mem ++ [mkTask a] ∧
    (mkTask a).title ≠ "" ∧
    (pyStrip a.title_input ≠ "" → (mkTask a).title = pyStrip a.title_input) ∧
    (pyStrip a.title_input = "" →
      (mkTask a).title = pyTake (pyStrip a.desc_input) 60 ++ "...") := by
  refine ⟨?_, ?_, ?_, ?_⟩
  · simp [submitAdd, h, save_tasks]
  · by_cases hts : pyStrip a.title_input = ""
    · simp only [mkTask, hts, if_pos]
      intro heq
      have hd := congrArg String.data heq
      simp [String.data_append] at hd
    · simp [mkTask, hts]
  · intro hts; simp [mkTask, hts]
  · intro hts; simp [mkTask, hts]

theorem c4_witness :
    ¬(pyStrip addA.title_input = "" ∧ pyStrip addA.desc_input = "") ∧
    (submitAdd addA st0).1.mem = st0.mem ++ [mkTask addA] ∧
    (mkTask addA).title ≠ "" :=
  ⟨by decide, (c4_title_nonempty addA st0 (by decide)).1,
    (c4_title_nonempty addA st0 (by decide)).2.1⟩

/-- C5: the filter loop never keeps a completed task when `show_done` is
false; with a specific category filter every surviving task carries
exactly that category; the `"all"` filter imposes no category condition
at all; and the result is a sublist of the input, so surviving tasks
keep their relative order. -/
theorem c5_filter_correct (show_done : Bool) (filter_cat : String) (ts : List Task) :
    (∀ t ∈ filterTasks false filter_cat ts, t.done = false) ∧
    (∀ t ∈ filterTasks show_done filter_cat ts,
      filter_cat = "all" ∨ t.category = filter_cat) ∧
    filterTasks show_done "all" ts = ts.filter (fun t => show_done || !t.done) ∧
    (filterTasks show_done filter_cat ts).Sublist ts := by
  refine ⟨?_, ?_, ?_, List.filter_sublist _⟩
  · intro t ht
    have hp := List.of_mem_filter ht
    simp only [Bool.and_eq_true, Bool.or_eq_true, Bool.false_or,
      Bool.not_eq_true'] at hp
    exact hp.1
  · intro t ht
    have hp := List.of_mem_filter ht
    by_cases hc : filter_cat = "all"
    · exact Or.inl hc
    · refine Or.inr ?_
      simp only [Bool.and_eq_true, Bool.or_eq_true, beq_iff_eq] at hp
      rcases hp.2 with h | h
      · exact absurd h hc
      · exact h
  · unfold filterTasks
    apply List.filter_congr
    intro t _
    simp

theorem c5_witness :
    (filterTasks false "work" [tTilde, tEmpty, tHigh]).Sublist [tTilde, tEmpty, tHigh] :=
  (c5_filter_correct false "work" [tTilde, tEmpty, tHigh]).2.2.2

/-- C8: the done-toggle handler is a no-op — same memory, same file,
no call to `save_tasks` — when the checkbox value equals the stored
`done`; only when the value differs does it rewrite every matching task
and persist the updated list. -/
theorem c8_toggle_writes_only_on_change (t : Task) (d : Bool) (st : StoreState) :
    (d = t.done → doneToggle t d st = st) ∧
    (d ≠ t.done →
      doneToggle t d st =
        { mem := st.mem.map (setTaskDone t.id d)
          file := some (st.mem.map (setTaskDone t.id d))
          writes := st.writes + 1 }) := by
  constructor
  · intro h; simp [doneToggle, h]
  · intro h; simp [doneToggle, h, save_tasks]

theorem c8_witness :
    doneToggle tTilde false stDup = stDup ∧ false = tTilde.done :=
  ⟨(c8_toggle_writes_only_on_change tTilde false stDup).1 (by decide), by decide⟩

/-- C10: every id-keyed mutation hits all tasks with the given id:
delete removes each of them (and keeps every other task), the edit save
handler overwrites the fields of each of them, and the done toggle sets
`done` on each of them — so duplicate ids are all changed by one
operation. -/
theorem c10_mutations_hit_all_matches (tid eid : Nat) (e : EditInput)
    (t0 : Task) (d : Bool) (st : StoreState) :
    (∀ t ∈ (deleteTask tid st).mem, t.id ≠ tid) ∧
    (∀ t ∈ st.mem, t.id ≠ tid → t ∈ (deleteTask tid st).mem) ∧
    (∀ t ∈ (editSave eid e st).mem, t.id = eid →
      t.title = pyStrip e.etitle ∧ t.description = pyStrip e.edesc ∧
      t.due = pyStrip e.edue ∧ t.priority = e.epriority ∧ t.category = e.ecat) ∧
    (d ≠ t0.done → ∀ t ∈ (doneToggle t0 d st).mem, t.id = t0.id → t.done = d) := by
  refine ⟨?_, ?_, ?_, ?_⟩
  · intro t ht
    have hp := List.of_mem_filter ht
    simpa using hp
  · intro t ht h
    exact List.mem_filter.mpr ⟨ht, by simpa using h⟩
  · intro t ht htid
    rcases List.mem_map.mp ht with ⟨u, _, rfl⟩
    by_cases hu : u.id = eid
    · simp [applyEdit, hu]
    · rw [applyEdit, if_neg hu] at htid ⊢
      exact absurd htid hu
  · intro hne t ht htid
    rw [doneToggle, if_pos hne] at ht
    rcases List.mem_map.mp ht with ⟨u, _, rfl⟩
    by_cases hu : u.id = t0.id
    · simp [setTaskDone, hu]
    · rw [setTaskDone, if_neg hu] at htid ⊢
      exact absurd htid hu

theorem c10_witness :
    (deleteTask 7 stDup).mem = [task8] ∧ task8.id ≠ 7 :=
  ⟨by decide,
    (c10_mutations_hit_all_matches 7 0 eDemo tTilde true stDup).1 task8 (by decide)⟩

/-- Every handler either leaves the store untouched or persists the very
list it just installed in memory, so a mirrored file stays mirrored. -/
theorem applyOp_file_mirrors (op : Op) (st : StoreState)
    (h : st.file = some st.mem) :
    (applyOp op st).file = some (applyOp op st).mem := by
  cases op with
  | add a =>
    by_cases hv : pyStrip a.title_input = "" ∧ pyStrip a.desc_input = ""
    · simpa [applyOp, submitAdd, hv] using h
    · simp [applyOp, submitAdd, hv, save_tasks]
  | edit eid e => simp [applyOp, editSave, save_tasks]
  | del tid => simp [applyOp, deleteTask, save_tasks]
  | moveTop t => simp [applyOp, moveToTop, save_tasks]
  | toggle t d =>
    by_cases hd : d ≠ t.done
    · simp [applyOp, doneToggle, hd, save_tasks]
    · simpa [applyOp, doneToggle, hd] using h

theorem applyOps_file_mirrors (ops : List Op) (st : StoreState)
    (h : st.file = some st.mem) :
    (applyOps ops st).file = some (applyOps ops st).mem := by
  induction ops generalizing st with
  | nil => simpa [applyOps] using h
  | cons op rest ih => simpa [applyOps] using ih _ (applyOp_file_mirrors op st h)

/-- C1: after any sequence of add/edit/delete/move-to-top/done-toggle
operations from any store state, saving the final in-memory sequence
with `save_tasks` and reloading it with `load_tasks` returns exactly
that sequence; moreover if the file mirrored memory initially it holds
the in-memory sequence verbatim after every operation. -/
theorem c1_save_load_roundtrip (ops : List Op) (st : StoreState) :
    load_tasks (save_tasks (applyOps ops st).mem (applyOps ops st)).file
      = (applyOps ops st).mem ∧
    (st.file = some st.mem →
      load_tasks (applyOps ops st).file = (applyOps ops st).mem) := by
  refine ⟨rfl, fun h => ?_⟩
  rw [applyOps_file_mirrors ops st h]
  rfl

theorem c1_witness :
    load_tasks (applyOps [Op.add addA, Op.moveTop tTilde, Op.del 5] st0).file
      = (applyOps [Op.add addA, Op.moveTop tTilde, Op.del 5] st0).mem :=
  (c1_save_load_roundtrip [Op.add addA, Op.moveTop tTilde, Op.del 5] st0).2 rfl

/-- C3 counterexample: two add submissions stamped with the same
millisecond clock value 5 (the only source of `id`) create two tasks
with equal ids, so ids are not unique without a clock assumption. -/
theorem c3_counterexample :
    memIds (applyOps [Op.add addA, Op.add addB] st0).mem = [5, 5] ∧
    ¬ (memIds (applyOps [Op.add addA, Op.add addB] st0).mem).Nodup :=
  ⟨by decide, by decide⟩

theorem id_applyEdit (eid : Nat) (e : EditInput) (t : Task) :
    (applyEdit eid e t).id = t.id := by
  unfold applyEdit
  split <;> rfl

theorem id_setTaskDone (tid : Nat) (d : Bool) (t : Task) :
    (setTaskDone tid d t).id = t.id := by
  unfold setTaskDone
  split <;> rfl

theorem memIds_map_applyEdit (eid : Nat) (e : EditInput) (l : List Task) :
    memIds (l.map (applyEdit eid e)) = memIds l := by
  simp only [memIds, List.map_map]
  exact List.map_congr_left fun t _ => id_applyEdit eid e t

theorem memIds_map_setTaskDone (tid : Nat) (d : Bool) (l : List Task) :
    memIds (l.map (setTaskDone tid d)) = memIds l := by
  simp only [memIds, List.map_map]
  exact List.map_congr_left fun t _ => id_setTaskDone tid d t

/-- C3 amended: provided the add operations of a run carry pairwise
distinct millisecond timestamps that also avoid every id already in the
store, and every move-to-top targets a task currently in the store (as
the UI guarantees), the store's ids remain unique after any sequence of
operations. -/
theorem c3_unique_ids_amended (ops : List Op) (st : StoreState)
    (hfresh : (memIds st.mem ++ addIds ops).Nodup)
    (hmoves : movesValid ops st = true) :
    (memIds (applyOps ops st).mem).Nodup := by
  induction ops generalizing st with
  | nil => simpa [applyOps, addIds] using hfresh
  | cons op rest ih =>
    show (memIds (applyOps rest (applyOp op st)).mem).Nodup
    cases op with
    | add a =>
      simp only [movesValid, Bool.true_and] at hmoves
      apply ih (applyOp (Op.add a) st) ?_ hmoves
      rw [show addIds (Op.add a :: rest) = a.now_ms :: addIds rest from by
        simp [addIds]] at hfresh
      by_cases hv : pyStrip a.title_input = "" ∧ pyStrip a.desc_input = ""
      · rw [show (applyOp (Op.add a) st).mem = st.mem from by
          simp [applyOp, submitAdd, hv]]
        exact List.Nodup.sublist
          (List.Sublist.append_left (List.sublist_cons_self _ _) _) hfresh
      · rw [show (applyOp (Op.add a) st).mem = st.mem ++ [mkTask a] from by
          simp [applyOp, submitAdd, hv, save_tasks]]
        rw [show memIds (st.mem ++ [mkTask a]) = memIds st.mem ++ [a.now_ms] from by
          simp [memIds, mkTask]]
        rw [List.append_assoc, List.singleton_append]
        exact hfresh
    | edit eid e =>
      simp only [movesValid, Bool.true_and] at hmoves
      apply ih (applyOp (Op.edit eid e) st) ?_ hmoves
      rw [show (applyOp (Op.edit eid e) st).mem = st.mem.map (applyEdit eid e) from by
        simp [applyOp, editSave, save_tasks]]
      rw [memIds_map_applyEdit]
      simpa [addIds] using hfresh
    | del tid =>
      simp only [movesValid, Bool.true_and] at hmoves
      apply ih (applyOp (Op.del tid) st) ?_ hmoves
      rw [show (applyOp (Op.del tid) st).mem
          = st.mem.filter (fun x => x.id != tid) from by
        simp [applyOp, deleteTask, save_tasks]]
      have hsub : List.Sublist (memIds (st.mem.filter (fun x => x.id != tid)))
          (memIds st.mem) :=
        List.Sublist.map Task.id (List.filter_sublist _)
      refine List.Nodup.sublist (hsub.append_right _) ?_
      simpa [addIds] using hfresh
    | moveTop t =>
      simp only [movesValid, Bool.and_eq_true, decide_eq_true_eq] at hmoves
      obtain ⟨ht, hrest⟩ := hmoves
      apply ih (applyOp (Op.moveTop t) st) ?_ hrest
      rw [show (applyOp (Op.moveTop t) st).mem
          = t :: st.mem.filter (fun x => x.id != t.id) from by
        simp [applyOp, moveToTop, save_tasks]]
      rw [show addIds (Op.moveTop t :: rest) = addIds rest from by
        simp [addIds]] at hfresh
      rw [show memIds (t :: st.mem.filter (fun x => x.id != t.id))
          = t.id :: memIds (st.mem.filter (fun x => x.id != t.id)) from rfl]
      rw [List.cons_append, List.nodup_cons]
      constructor
      · intro hmem
        rcases List.mem_append.mp hmem with hF | hR
        · rcases List.mem_map.mp hF with ⟨u, hu, huid⟩
          have hne := List.of_mem_filter hu
          simp only [bne_iff_ne, ne_eq] at hne
          exact hne huid
        · exact (List.nodup_append.mp hfresh).2.2
            (List.mem_map_of_mem Task.id ht) hR
      · have hsub : List.Sublist (memIds (st.mem.filter (fun x => x.id != t.id)))
            (memIds st.mem) :=
          List.Sublist.map Task.id (List.filter_sublist _)
        exact List.Nodup.sublist (hsub.append_right _) hfresh
    | toggle t d =>
      simp only [movesValid, Bool.true_and] at hmoves
      apply ih (applyOp (Op.toggle t d) st) ?_ hmoves
      rw [show addIds (Op.toggle t d :: rest) = addIds rest from by
        simp [addIds]] at hfresh
      by_cases hd : d ≠ t.done
      · rw [show (applyOp (Op.toggle t d) st).mem
            = st.mem.map (setTaskDone t.id d) from by
          simp [applyOp, doneToggle, hd, save_tasks]]
        rw [memIds_map_setTaskDone]
        exact hfresh
      · rw [show (applyOp (Op.toggle t d) st).mem = st.mem from by
          simp [applyOp, doneToggle, hd]]
        exact hfresh

theorem c3_witness :
    (memIds st0.mem ++ addIds [Op.add addA, Op.add addC]).Nodup ∧
    (memIds (applyOps [Op.add addA, Op.add addC] st0).mem).Nodup :=
  ⟨by decide,
    c3_unique_ids_amended [Op.add addA, Op.add addC] st0 (by decide) (by decide)⟩

/-! Order lemmas for the code-point comparison `lexLe`. -/

theorem lexLe_total : ∀ as bs : List Char, lexLe as bs = true ∨ lexLe bs as = true := by
  intro as
  induction as with
  | nil => intro bs; left; rfl
  | cons a as ih =>
    intro bs
    cases bs with
    | nil => right; rfl
    | cons b bs =>
      rcases lt_trichotomy a b with h | h | h
      · left; simp [lexLe, h]
      · subst h; simpa [lexLe] using ih bs
      · right; simp [lexLe, h]

theorem lexLe_trans : ∀ as bs cs : List Char,
    lexLe as bs = true → lexLe bs cs = true → lexLe as cs = true := by
  intro as
  induction as with
  | nil => intro bs cs _ _; rfl
  | cons a as ih =>
    intro bs cs h1 h2
    cases bs with
    | nil => simp [lexLe] at h1
    | cons b bs =>
      cases cs with
      | nil => simp [lexLe] at h2
      | cons c cs =>
        simp only [lexLe] at h1 h2 ⊢
        rcases lt_trichotomy a b with hab | hab | hab
        · rcases lt_trichotomy b c with hbc | hbc | hbc
          · simp [lt_trans hab hbc]
          · subst hbc; simp [hab]
          · simp [lexLe, hbc, not_lt_of_lt hbc] at h2
        · subst hab
          rcases lt_trichotomy a c with hac | hac | hac
          · simp [hac]
          · subst hac
            simp only [lt_irrefl, if_neg (lt_irrefl a)] at h1 h2 ⊢
            simp at h1 h2 ⊢
            exact ih _ _ h1 h2
          · simp [hac, not_lt_of_lt hac] at h2
        · simp [hab, not_lt_of_lt hab] at h1

/-- C6 counterexample: with a due string that compares above the
`"9999-99-99"` sentinel (possible, since the edit panel accepts free
text), sorting by due places the empty-due task first, i.e. before a
non-empty-due task — the claimed "strictly after" ordering fails. -/
theorem c6_counterexample :
    sortByDue [tTilde, tEmpty] = [tEmpty, tTilde] ∧
    tEmpty.due = "" ∧ tTilde.due ≠ "" ∧
    ¬ (sortByDue [tTilde, tEmpty]).Pairwise (fun a b => a.due = "" → b.due = "") :=
  ⟨by decide, by decide, by decide, by decide⟩

/-- C6 amended: provided every non-empty due string compares strictly
below the `"9999-99-99"` sentinel — true of all well-formed `YYYY-MM-DD`
dates — sorting by due places every empty-due task strictly after all
non-empty-due tasks, orders the non-empty due dates ascending, and
permutes the input. -/
theorem c6_sort_due_amended (ts : List Task)
    (hvalid : ∀ t ∈ ts, t.due = "" ∨
      lexLe "9999-99-99".data t.due.data = false) :
    (sortByDue ts).Pairwise (fun a b => a.due = "" → b.due = "") ∧
    (sortByDue ts).Pairwise
      (fun a b => a.due ≠ "" → b.due ≠ "" → lexLe a.due.data b.due.data = true) ∧
    List.Perm (sortByDue ts) ts := by
  have hsorted : (sortByDue ts).Pairwise
      (fun a b : Task => lexLe (dueKey a).data (dueKey b).data = true) := by
    haveI : IsTotal Task
        (fun a b : Task => lexLe (dueKey a).data (dueKey b).data = true) :=
      ⟨fun a b => lexLe_total _ _⟩
    haveI : IsTrans Task
        (fun a b : Task => lexLe (dueKey a).data (dueKey b).data = true) :=
      ⟨fun a b c => lexLe_trans _ _ _⟩
    exact List.sorted_insertionSort _ ts
  have hmem : ∀ {t : Task}, t ∈ sortByDue ts → t ∈ ts :=
    fun h => (List.mem_insertionSort _).mp h
  refine ⟨?_, ?_, List.perm_insertionSort _ ts⟩
  · refine hsorted.imp_of_mem ?_
    intro a b _ hb hr hadue
    by_contra hbdue
    rcases hvalid b (hmem hb) with h | hlt
    · exact hbdue h
    · rw [dueKey, if_pos hadue, dueKey, if_neg hbdue] at hr
      simp [hlt] at hr
  · refine hsorted.imp_of_mem ?_
    intro a b _ _ hr hadue hbdue
    rwa [dueKey, if_neg hadue, dueKey, if_neg hbdue] at hr

theorem c6_witness : List.Perm (sortByDue [tHigh, tEmpty]) [tHigh, tEmpty] :=
  (c6_sort_due_amended [tHigh, tEmpty] (by decide)).2.2

/-- C7: sorting by priority orders tasks ascending by the rank
High = 0, Medium = 1, Low = 2 (any other or missing priority getting
Medium's rank 1), permutes the input, and is stable: for every rank the
subsequence of tasks of that rank is unchanged. -/
theorem c7_sort_priority_stable (ts : List Task) :
    (sortByPriority ts).Pairwise (fun a b => priorityRank a ≤ priorityRank b) ∧
    (∀ t : Task,
      (t.priority = "High" → priorityRank t = 0) ∧
      (t.priority = "Medium" → priorityRank t = 1) ∧
      (t.priority = "Low" → priorityRank t = 2) ∧
      (t.priority ≠ "High" → t.priority ≠ "Medium" → t.priority ≠ "Low" →
        priorityRank t = 1)) ∧
    (∀ r : Nat, (sortByPriority ts).filter (fun t => priorityRank t == r)
        = ts.filter (fun t => priorityRank t == r)) ∧
    List.Perm (sortByPriority ts) ts := by
  refine ⟨?_, ?_, ?_, List.perm_insertionSort _ ts⟩
  · haveI : IsTotal Task (fun a b : Task => priorityRank a ≤ priorityRank b) :=
      ⟨fun a b => Nat.le_total _ _⟩
    haveI : IsTrans Task (fun a b : Task => priorityRank a ≤ priorityRank b) :=
      ⟨fun a b c => Nat.le_trans⟩
    exact List.sorted_insertionSort _ ts
  · intro t
    exact ⟨fun h => by simp [priorityRank, h], fun h => by simp [priorityRank, h],
      fun h => by simp [priorityRank, h],
      fun h1 h2 h3 => by simp [priorityRank, h1, h2, h3]⟩
  · intro r
    have hpw : (ts.filter (fun t => priorityRank t == r)).Pairwise
        (fun a b : Task => priorityRank a ≤ priorityRank b) := by
      apply List.pairwise_of_forall_mem_list
      intro a ha b hb
      have ha' := (List.mem_filter.mp ha).2
      have hb' := (List.mem_filter.mp hb).2
      simp only [beq_iff_eq] at ha' hb'
      rw [ha', hb']
    have h1 : List.Sublist (ts.filter (fun t => priorityRank t == r))
        (sortByPriority ts) :=
      List.sublist_insertionSort hpw (List.filter_sublist _)
    have h2 := List.Sublist.filter (fun t => priorityRank t == r) h1
    rw [List.filter_eq_self.mpr (fun a ha => (List.mem_filter.mp ha).2)] at h2
    have h4 : ((sortByPriority ts).filter (fun t => priorityRank t == r)).length
        = (ts.filter (fun t => priorityRank t == r)).length :=
      (List.Perm.filter _ (List.perm_insertionSort _ ts)).length_eq
    exact (h2.eq_of_length h4.symm).symm

theorem c7_witness :
    sortByPriority [tTilde, tEmpty, tHigh] = [tHigh, tTilde, tEmpty] ∧
    (sortByPriority [tTilde, tEmpty, tHigh]).filter (fun t => priorityRank t == 1)
      = [tTilde, tEmpty, tHigh].filter (fun t => priorityRank t == 1) :=
  ⟨by decide, (c7_sort_priority_stable [tTilde, tEmpty, tHigh]).2.2.1 1⟩

/-- C9: with no API key `ai_categorize` returns `""`; with a key, the
raw response is lower-cased and the first member of the fixed
enumeration occurring in it as a substring is returned, `"other"` when
none occurs; in particular the raw response `"Category: Work stuff"`
resolves to `"work"`. -/
theorem c9_categorize_first_match (raw : String) :
    ai_categorize false raw = "" ∧
    ai_categorize true "Category: Work stuff" = "work" ∧
    ((∃ pre c post, categories = pre ++ c :: post ∧
        ai_categorize true raw = c ∧
        containsSub c (pyLower raw) = true ∧
        ∀ b ∈ pre, containsSub b (pyLower raw) = false) ∨
      (ai_categorize true raw = "other" ∧
        ∀ c ∈ categories, containsSub c (pyLower raw) = false)) := by
  refine ⟨rfl, by decide, ?_⟩
  rcases hf : categories.find? (fun c => containsSub c (pyLower raw)) with _ | c
  · right
    refine ⟨by simp [ai_categorize, hf], ?_⟩
    intro c hc
    have := List.find?_eq_none.mp hf c hc
    simpa using this
  · left
    obtain ⟨hp, as, bs, hsplit, hpre⟩ := List.find?_eq_some.mp hf
    refine ⟨as, c, bs, hsplit, by simp [ai_categorize, hf], hp, ?_⟩
    intro b hb
    simpa using hpre b hb

theorem c9_witness :
    ai_categorize true "Category: Work stuff" = "work" :=
  (c9_categorize_first_match "anything").2.1

end TodoApp
